import Mathlib

/-!
Verification development for the Wikidata radius dumper.

The definitions below are a shallow embedding of the repository's core
crawl/transport/serialization code (TypeScript) into Lean:

* `lib/utils.ts`        : `chunkArray`, `parseRetryAfter`, `exponentialBackoff`,
                          `extractQidFromUri`
* `server/wdqsClient.ts`: `WdqsClient.enforceRateLimit` / `fetchSparql` as a
                          deterministic timed trace semantics (time in ms as `Nat`,
                          cooperative sleeps are exact)
* `server/mwapi.ts`     : `MediaWikiApi.enumerateInstances` (the async generator is
                          embedded as a function from the sequence of upstream pages
                          to the list of yielded identifiers)
* `server/subclasses.ts`: `expandSubclasses`
* `server/construct.ts` : `extractNeighbors`
* `server/propertyEnrichment.ts` : `extractPropertyIds`
* `server/dump.ts`      : `DumpOrchestrator.execute`, `estimateTriples`, the
                          radius hop loop and `convertToTurtle`'s line-by-line
                          parse-and-count loop.

Network responses, the n3 line parser and the abort signal are inputs of the
embedding (oracles), everything else is translated from the source.  JavaScript
`Set` objects are embedded as duplicate-free lists in insertion order, JS strings
as `String` with character-list operations mirroring `split`, `trim`, `slice`,
and JS floating point (only exercised at `0 / 0`) as the algebra `JsNum`.
-/

namespace QW

/-! ### JavaScript `Set` embedding: duplicate-free lists in insertion order -/

/-- `Set.add`: append the element unless it is already present. -/
def setAdd (s : List String) (x : String) : List String :=
  if x ∈ s then s else s ++ [x]

/-- `new Set(list)` / iteration order of a JS `Set` built from a list. -/
def jsSetOfList (l : List String) : List String :=
  l.foldl setAdd []

/-! ### JS string primitives over character lists -/

/-- Whitespace as relevant to `String.prototype.trim` on the data at hand. -/
def isWhite (c : Char) : Bool :=
  c = ' ' || c = '\t' || c = '\n' || c = '\r'

/-- `line.trim() === ''` — the line is blank. -/
def isBlank (s : String) : Bool :=
  s.data.all isWhite

/-- JS `string.split(sep)` over character lists: keeps empty fragments,
`''.split(c) = ['']`. -/
def splitCharsOn (c : Char) : List Char → List (List Char)
  | [] => [[]]
  | x :: xs =>
    let r := splitCharsOn c xs
    if x = c then [] :: r
    else
      match r with
      | [] => [[x]]
      | h :: t => (x :: h) :: t

/-- JS `s.split(c)` for a single-character separator. -/
def jsSplitOn (c : Char) (s : String) : List String :=
  (splitCharsOn c s.data).map String.mk

/-- Whether `pat` occurs at the head of `cs` (literal match). -/
def leadsWith : List Char → List Char → Bool
  | [], _ => true
  | _ :: _, [] => false
  | a :: as, b :: bs => a = b && leadsWith as bs

/-- Maximal run of ASCII digits at the head of a character list (`\d+` anchored). -/
def digitRun (cs : List Char) : List Char :=
  cs.takeWhile Char.isDigit

/-! ### `lib/utils.ts` -/

/-- The chunking loop of `chunkArray`, with the list length as structural
fuel (each iteration consumes at least one element when `size ≥ 1`). -/
def chunkArrayGo (size : Nat) : Nat → List String → List (List String)
  | _, [] => []
  | 0, _ :: _ => []
  | fuel + 1, x :: xs => (x :: xs).take size :: chunkArrayGo size fuel ((x :: xs).drop size)

/-- `chunkArray(array, size)`: fixed-size partition by repeated `slice(i, i + size)`.
(The JS loop diverges for `size = 0`; it is only ever called with positive sizes,
and the embedding returns `[]` there.) -/
def chunkArray (l : List String) (size : Nat) : List (List String) :=
  if size = 0 then [] else chunkArrayGo size l.length l

/-- `extractQidFromUri(uri)`: the regex `/\/Q(\d+)$/`, returning `Q<digits>`. -/
def extractQidFromUri (uri : String) : Option String :=
  let rev := uri.data.reverse
  let ds := rev.takeWhile Char.isDigit
  match rev.drop ds.length with
  | 'Q' :: '/' :: _ => if ds.isEmpty then none else some (String.mk ('Q' :: ds.reverse))
  | _ => none

/-- The regex `/Q\d+$/` of `expandSubclasses`: a trailing `Q<digits>` (no
leading slash required), returning the matched text. -/
def qidSuffix (uri : String) : Option String :=
  let rev := uri.data.reverse
  let ds := rev.takeWhile Char.isDigit
  match rev.drop ds.length with
  | 'Q' :: _ => if ds.isEmpty then none else some (String.mk ('Q' :: ds.reverse))
  | _ => none

/-! ### `server/construct.ts` : `extractNeighbors` -/

/-- One step of `extractNeighbors`' per-line scan: if the line has at least
three space-separated parts and the third starts with the entity-URI marker,
extract the QID of `object.slice(1, -1)`. -/
def neighborOfLine (line : String) : Option String :=
  if isBlank line then none
  else
    let parts := jsSplitOn ' ' line
    if parts.length < 3 then none
    else
      let object := (parts.drop 2).headD ""
      if leadsWith "<http://www.wikidata.org/entity/Q".data object.data then
        extractQidFromUri (String.mk (object.data.drop 1).dropLast)
      else none

/-- `extractNeighbors(ntriples)`: scan the N-Triples text line by line for
entity-valued objects; the JS `Set<string>` result is the duplicate-free list
of QIDs in first-seen order. -/
def extractNeighbors (ntriples : String) : List String :=
  (jsSplitOn '\n' ntriples).foldl
    (fun acc line =>
      match neighborOfLine line with
      | some qid => setAdd acc qid
      | none => acc) []

/-! ### `server/propertyEnrichment.ts` : `extractPropertyIds` -/

/-- All matches of `<pat><digits>` inside a character list: at every position
where the literal pattern occurs, take the maximal digit run after it and
return `P<digits>` when nonempty.  This realizes `line.matchAll(/<pat>P\d+/g)`
followed by `match[0].match(/P\d+/)` for the three property-URI patterns,
whose matches cannot overlap themselves. -/
def scanPropPattern (pat : List Char) : List Char → List String
  | [] => []
  | c :: rest =>
    (if leadsWith pat (c :: rest) then
      let ds := digitRun ((c :: rest).drop pat.length)
      if ds.isEmpty then [] else [String.mk ('P' :: ds)]
     else []) ++ scanPropPattern pat rest

/-- The three property-URI patterns of `extractPropertyIds`, each up to the
final `P` (the digits are matched by `scanPropPattern`). -/
def propPatterns : List (List Char) :=
  ["http://www.wikidata.org/prop/direct/P".data,
   "http://www.wikidata.org/entity/P".data,
   "http://www.wikidata.org/prop/P".data]

/-- `extractPropertyIds(ntriples)`: unique property IDs (`P123` form) found in
the text, scanning non-blank lines with the three URI patterns; the JS `Set`
is the duplicate-free list in first-seen order. -/
def extractPropertyIds (ntriples : String) : List String :=
  (jsSplitOn '\n' ntriples).foldl
    (fun acc line =>
      if isBlank line then acc
      else propPatterns.foldl
        (fun acc2 pat => (scanPropPattern pat line.data).foldl setAdd acc2) acc) []

/-- `ntriples.split('\n').filter(line => line.trim()).length` — the count of
non-blank lines, used by the orchestrator as its `triplesWritten` counter and
by the radius-1 scenario as the output line count. -/
def countNonEmptyLines (s : String) : Nat :=
  ((jsSplitOn '\n' s).filter (fun l => !isBlank l)).length

/-! ### `lib/utils.ts` : `parseRetryAfter`, and the timed transport model

Time is in milliseconds (`Nat`).  Cooperative sleeps (`setTimeout`) are exact
and request handling is otherwise instantaneous except for the explicit
per-attempt `duration`.  The string/date parsing of the `Retry-After` header is
abstracted into the four outcomes of JS `parseInt` / `new Date` on it. -/

/-- The `Retry-After` header as seen by `parseRetryAfter`: absent, an integer
(`parseInt` succeeds, value in seconds), an HTTP date (`parseInt` fails,
`new Date` succeeds, value is the epoch timestamp in ms), or unparseable. -/
inductive RetryAfterHeader where
  | absent : RetryAfterHeader
  | seconds : Int → RetryAfterHeader
  | httpDate : Int → RetryAfterHeader
  | unparseable : RetryAfterHeader
deriving DecidableEq

/-- `parseRetryAfter(retryAfter)` (ms); `now` is `Date.now()` at call time. -/
def parseRetryAfter (h : RetryAfterHeader) (now : Int) : Int :=
  match h with
  | .absent => 5000
  | .seconds s => s * 1000
  | .httpDate t => max 0 (t - now)
  | .unparseable => 5000

/-- Outcome of one `fetch` attempt inside `fetchSparql`'s retry closure. -/
inductive AttemptResult where
  | ok : AttemptResult
  | status429 : RetryAfterHeader → AttemptResult
  | status503 : AttemptResult
  | httpError : Nat → AttemptResult
  | networkError : AttemptResult
  | timedOut : AttemptResult
deriving DecidableEq

/-- One attempt: how long the request takes and how it ends. -/
structure AttemptOutcome where
  duration : Nat
  result : AttemptResult
deriving DecidableEq

/-- Whether the attempt throws (everything except a 2xx response). -/
def attemptFails (r : AttemptResult) : Bool :=
  match r with
  | .ok => false
  | _ => true

/-- Time at which the attempt's closure finishes (returns or throws): the
request duration, plus — on a 429 only — the `sleep(parseRetryAfter(...))`
performed before the `throw new Error('Rate limited')`. -/
def attemptFinish (now : Nat) (a : AttemptOutcome) : Nat :=
  let t := now + a.duration
  match a.result with
  | .status429 h => t + (parseRetryAfter h (t : Int)).toNat
  | _ => t

/-- Trace of one `exponentialBackoff(fn)` run: the start time of every attempt,
the time at which it returns or gives up, and whether it succeeded. -/
structure BackoffTrace where
  starts : List Nat
  finish : Nat
  ok : Bool
deriving DecidableEq

/-- `exponentialBackoff(fn, maxRetries, baseDelay)`: run the attempt given by
`beh i`; on failure sleep `baseDelay * 2^i` and retry, up to `fuel` attempts.
`wdqsClient` uses the defaults `maxRetries = 5`, `baseDelay = 1000`. -/
def backoffRun (beh : Nat → AttemptOutcome) (baseDelay : Nat) :
    Nat → Nat → Nat → BackoffTrace
  | 0, _, now => ⟨[], now, false⟩
  | fuel + 1, i, now =>
    let a := beh i
    let t := attemptFinish now a
    if attemptFails a.result then
      let tr := backoffRun beh baseDelay fuel (i + 1) (t + baseDelay * 2 ^ i)
      ⟨now :: tr.starts, tr.finish, tr.ok⟩
    else ⟨[now], t, true⟩

/-- `MIN_DELAY_MS` of `wdqsClient.ts`. -/
def MIN_DELAY_MS : Nat := 200

/-- `enforceRateLimit()`: returns the time at which the method finishes (which
is both the moment the request is issued and the new `lastRequestTime`).
`last` is the stored `lastRequestTime`; the clock is monotone (`last ≤ now`
along every real trace, and `last` is initialized to 0). -/
def enforceRateLimit (now last : Nat) : Nat :=
  if now - last < MIN_DELAY_MS then now + (MIN_DELAY_MS - (now - last)) else now

/-- Trace of one `fetchSparql` call. -/
structure FetchTrace where
  starts : List Nat
  finish : Nat
  newLast : Nat
  ok : Bool
deriving DecidableEq

/-- `fetchSparql`: enforce the rate limit once, record `lastRequestTime`, then
run the attempts under `exponentialBackoff` (5 attempts, base delay 1000ms).
Retried attempts do not pass through `enforceRateLimit` again. -/
def fetchSparql (last now : Nat) (beh : Nat → AttemptOutcome) : FetchTrace :=
  let t0 := enforceRateLimit now last
  let tr := backoffRun beh 1000 5 0 t0
  ⟨tr.starts, tr.finish, t0, tr.ok⟩

/-- Trace of a sequence of sequential `fetchSparql` calls through one client:
every attempt start time, the per-call recorded request start times (the
successive values of `lastRequestTime`), and the end time. -/
structure CallsTrace where
  allStarts : List Nat
  firstStarts : List Nat
  finish : Nat
deriving DecidableEq

/-- Sequential calls: each call begins when the previous one returns. -/
def runCalls (last now : Nat) : List (Nat → AttemptOutcome) → CallsTrace
  | [] => ⟨[], [], now⟩
  | beh :: rest =>
    let tr := fetchSparql last now beh
    let next := runCalls tr.newLast tr.finish rest
    ⟨tr.starts ++ next.allStarts, tr.newLast :: next.firstStarts, next.finish⟩

/-- Minimum-gap check over a list of start times: every consecutive pair is at
least `gap` ms apart. -/
def minGapsOk (gap : Nat) : List Nat → Bool
  | a :: b :: rest => decide (a + gap ≤ b) && minGapsOk gap (b :: rest)
  | _ => true

/-! ### `server/mwapi.ts` : `enumerateInstances`

The async generator is embedded as a function from the sequence of upstream
search pages to the list of yielded identifiers.  Each class's upstream is the
list of pages (`result.ids` per `searchHasStatement` response) it would serve
in cursor order; the last page is the one without a continuation token. -/

/-- The JS guard `maxInstances && totalYielded >= maxInstances` (recall that
`0` is falsy, so a zero cap disables the check). -/
def capHit (maxInstances : Option Nat) (total : Nat) : Bool :=
  match maxInstances with
  | none => false
  | some k => if k = 0 then false else decide (k ≤ total)

/-- The inner `for (const qid of result.ids)` loop: check the cap before each
yield.  Returns the yielded ids, the updated running total, and whether the
generator returned (cap reached). -/
def yieldPageIds (m : Option Nat) : List String → Nat → List String × Nat × Bool
  | [], total => ([], total, false)
  | q :: rest, total =>
    if capHit m total then ([], total, true)
    else
      (q :: (yieldPageIds m rest (total + 1)).1,
       (yieldPageIds m rest (total + 1)).2.1,
       (yieldPageIds m rest (total + 1)).2.2)

/-- The `while (true)` pagination loop for one class: check the cap before each
page request, yield the page, continue while a cursor remains. -/
def runPages (m : Option Nat) : List (List String) → Nat → List String × Nat × Bool
  | [], total => ([], total, false)
  | page :: rest, total =>
    if capHit m total then ([], total, true)
    else
      if (yieldPageIds m page total).2.2 then yieldPageIds m page total
      else
        ((yieldPageIds m page total).1 ++
           (runPages m rest (yieldPageIds m page total).2.1).1,
         (runPages m rest (yieldPageIds m page total).2.1).2.1,
         (runPages m rest (yieldPageIds m page total).2.1).2.2)

/-- The outer `for (const classQid of classQids)` loop: classes are iterated
sequentially and the running total is shared across them. -/
def enumClasses (m : Option Nat) : List (List (List String)) → Nat → List String
  | [], _ => []
  | pages :: rest, total =>
    if (runPages m pages total).2.2 then (runPages m pages total).1
    else (runPages m pages total).1 ++ enumClasses m rest (runPages m pages total).2.1

/-- `enumerateInstances(classQids, maxInstances)`, as the list of all yielded
identifiers; `classes` gives each class's upstream pages in order. -/
def enumerateInstances (classes : List (List (List String))) (m : Option Nat) :
    List String :=
  enumClasses m classes 0

/-! ### `server/subclasses.ts` : `expandSubclasses` -/

/-- `expandSubclasses(classQid)`.  The SELECT response is an oracle: `.ok uris`
is the list of `binding.class.value` URIs, `.error e` any transport failure
(retries already exhausted inside the client).  On success the URIs are mapped
through the `/Q\d+$/` match and nulls filtered; on any failure the function
returns the singleton `[classQid]`. -/
def expandSubclasses (classQid : String) (resp : Except String (List String)) :
    List String :=
  match resp with
  | .ok uris => uris.filterMap qidSuffix
  | .error _ => [classQid]

/-! ### JavaScript number algebra (only `0 / 0`, `NaN` propagation and
`Math.round` are exercised by the orchestrator's estimate formula) -/

/-- JS `number` values reachable in the estimate computation. -/
inductive JsNum where
  | nan : JsNum
  | posInf : JsNum
  | negInf : JsNum
  | num : ℚ → JsNum
deriving DecidableEq

/-- JS division: `0 / 0 = NaN`, `x / 0 = ±Infinity` for finite nonzero `x`,
`NaN` propagates. -/
def jsDiv : JsNum → JsNum → JsNum
  | .nan, _ => .nan
  | _, .nan => .nan
  | .num a, .num b =>
    if b = 0 then (if a = 0 then .nan else if 0 < a then .posInf else .negInf)
    else .num (a / b)
  | .posInf, .num b => if b < 0 then .negInf else .posInf
  | .negInf, .num b => if b < 0 then .posInf else .negInf
  | .num _, .posInf => .num 0
  | .num _, .negInf => .num 0
  | .posInf, .posInf => .nan
  | .posInf, .negInf => .nan
  | .negInf, .posInf => .nan
  | .negInf, .negInf => .nan

/-- JS multiplication: `NaN` propagates, `±Infinity * 0 = NaN`. -/
def jsMul : JsNum → JsNum → JsNum
  | .nan, _ => .nan
  | _, .nan => .nan
  | .num a, .num b => .num (a * b)
  | .posInf, .num b => if b = 0 then .nan else if 0 < b then .posInf else .negInf
  | .negInf, .num b => if b = 0 then .nan else if 0 < b then .negInf else .posInf
  | .num a, .posInf => if a = 0 then .nan else if 0 < a then .posInf else .negInf
  | .num a, .negInf => if a = 0 then .nan else if 0 < a then .negInf else .posInf
  | .posInf, .posInf => .posInf
  | .posInf, .negInf => .negInf
  | .negInf, .posInf => .negInf
  | .negInf, .negInf => .posInf

/-- JS `Math.round`: `⌊x + 1/2⌋` on finite values, identity on `NaN`/infinities. -/
def jsRound : JsNum → JsNum
  | .nan => .nan
  | .posInf => .posInf
  | .negInf => .negInf
  | .num a => .num (⌊a + 1 / 2⌋ : ℤ)

/-- `SAMPLE_SIZE` of `dump.ts`. -/
def SAMPLE_SIZE : Nat := 100

/-- `BATCH_SIZE` of `dump.ts`. -/
def BATCH_SIZE : Nat := 200

/-- `estimateTriples(sampleQids)`.  The guard for an empty sample runs before
the query; on success the `?count` bindings (`resp = .ok counts`) are summed,
on any transport error the fallback `sampleQids.length * 20` is returned. -/
def estimateTriples (sampleQids : List String) (resp : Except String (List Int)) :
    Int :=
  if sampleQids.isEmpty then 0
  else
    match resp with
    | .ok counts => counts.foldl (· + ·) 0
    | .error _ => (sampleQids.length : Int) * 20

/-- Line 104 of `dump.ts`:
`Math.round((estimatedTriples / Math.min(SAMPLE_SIZE, instances.length)) * instances.length)`. -/
def totalEstimate (estimatedTriples : Int) (instancesLength : Nat) : JsNum :=
  jsRound (jsMul
    (jsDiv (.num (estimatedTriples : ℚ))
           (.num ((min SAMPLE_SIZE instancesLength : Nat) : ℚ)))
    (.num (instancesLength : ℚ)))

/-! ### `server/dump.ts` : `DumpOrchestrator.execute`

The pipeline is embedded with its external effects as oracles: the subclass
SELECT response, the search pages per class, the estimate SELECT response, the
CONSTRUCT response per hop batch and per property batch (each an
`Except String` — `.error` is a transport failure already past its retries,
carrying the thrown error's message), and the abort signal.  The abort signal
is time-varying: `abortAfter = some n` means `signal.aborted` is `false` for
the first `n` checks and `true` from the `n`-th check on (`none`: never
aborted).  Every loop that checks the signal threads the check counter. -/

/-- `DumpConfig` of `lib/types.ts` (fields used by `execute`). -/
structure DumpConfig where
  classQid : String
  radius : Nat
  maxInstances : Nat
  language : String
  includeSubclasses : Bool
  includePropertyMetadata : Option Bool
deriving DecidableEq

/-- The environment (external world) of one `execute` run. -/
structure ExecEnv where
  expandResponse : Except String (List String)
  pagesFor : String → List (List String)
  estimateResponse : Except String (List Int)
  fetchHop : List String → Except String String
  fetchProps : List String → Except String String
  abortAfter : Option Nat

/-- Terminal record of a job: `completed` carries the published
`estimatedTriples`, the final N-Triples text and the visited-entity count;
`failed` carries `job.error` (the thrown error's message). -/
inductive ExecResult where
  | completed : JsNum → String → Nat → ExecResult
  | failed : String → ExecResult
deriving DecidableEq

/-- `DumpJob.status` values of `lib/types.ts`. -/
inductive JobStatus where
  | pending : JobStatus
  | running : JobStatus
  | completed : JobStatus
  | failed : JobStatus
deriving DecidableEq

/-- The `job.status` a terminal record carries. -/
def statusOf : ExecResult → JobStatus
  | .completed _ _ _ => .completed
  | .failed _ => .failed

/-- Whether the `k`-th abort-signal check observes `signal.aborted`. -/
def abortSet (abortAfter : Option Nat) (k : Nat) : Bool :=
  match abortAfter with
  | none => false
  | some n => decide (n ≤ k)

/-- The enumeration loop of Phase B: one abort check per yielded identifier
(`if (this.abortController.signal.aborted) throw new Error('Job aborted')`),
then the identifier is pushed. -/
def enumLoop (abortAfter : Option Nat) :
    List String → Nat → Except String (List String × Nat)
  | [], k => .ok ([], k)
  | q :: rest, k =>
    if abortSet abortAfter k then .error "Job aborted"
    else
      match enumLoop abortAfter rest (k + 1) with
      | .error e => .error e
      | .ok (l, k') => .ok (q :: l, k')

/-- The per-batch loop of one hop: abort check, CONSTRUCT through the
transport (failure propagates), append the raw result to the output, and —
unless at the final hop — accumulate extracted neighbors not already visited
into the next frontier (a JS `Set`). -/
def runBatches (env : ExecEnv) (lastHop : Bool) (visited' : List String) :
    List (List String) → Nat → String → List String →
    Except String (String × List String × Nat)
  | [], k, out, acc => .ok (out, acc, k)
  | b :: rest, k, out, acc =>
    if abortSet env.abortAfter k then .error "Job aborted"
    else
      match env.fetchHop b with
      | .error e => .error e
      | .ok nt =>
        let acc' :=
          if lastHop then acc
          else (extractNeighbors nt).foldl
            (fun a q => if q ∈ visited' then a else setAdd a q) acc
        runBatches env lastHop visited' rest (k + 1) (out ++ nt) acc'

/-- The radius loop of Phase D.  `fuel` is the number of hops still allowed
(initially `config.radius`); the hop being executed is the last one when
`fuel` reaches 1.  Returns the per-hop processed (filtered, marked-visited)
identifier lists, the concatenated output text, the final visited set and the
abort-check counter. -/
def runHops (env : ExecEnv) :
    Nat → List String → List String → Nat →
    Except String (List (List String) × String × List String × Nat)
  | 0, visited, _, k => .ok ([], "", visited, k)
  | fuel + 1, visited, frontier, k =>
    if frontier.isEmpty then .ok ([], "", visited, k)
    else
      let toProcess := frontier.filter (fun q => !(visited.contains q))
      if toProcess.isEmpty then runHops env fuel visited frontier k
      else
        let visited' := visited ++ toProcess
        let batches := chunkArray toProcess BATCH_SIZE
        match runBatches env (fuel = 0) visited' batches k "" [] with
        | .error e => .error e
        | .ok (out, next, k') =>
          match runHops env fuel visited' next k' with
          | .error e => .error e
          | .ok (ps, out', vf, k'') => .ok (toProcess :: ps, out ++ out', vf, k'')

/-- The property-enrichment batch loop of Phase E: abort check, CONSTRUCT
through the transport (failure propagates — there is no try/catch around this
loop), append to the output. -/
def propBatches (env : ExecEnv) :
    List (List String) → Nat → String → Except String (String × Nat)
  | [], k, out => .ok (out, k)
  | b :: rest, k, out =>
    if abortSet env.abortAfter k then .error "Job aborted"
    else
      match env.fetchProps b with
      | .error e => .error e
      | .ok nt => propBatches env rest (k + 1) (out ++ nt)

/-- Phase E: extract the property IDs from the written stream and, when any
exist, fetch their metadata in batches of 50. -/
def propPhase (env : ExecEnv) (ntContent : String) (k : Nat) :
    Except String (String × Nat) :=
  let propertyIds := extractPropertyIds ntContent
  if propertyIds.isEmpty then .ok ("", k)
  else propBatches env (chunkArray propertyIds 50) k ""

/-- `DumpOrchestrator.execute`: Phase A (optional subclass expansion, failures
degraded inside `expandSubclasses`), Phase B (enumeration with per-item abort
checks), Phase C (estimate, failures degraded inside `estimateTriples`),
Phase D (radius loop), Phase E (property enrichment unless explicitly
disabled), Phase F (`convertToTurtle`, which cannot fail on malformed lines).
Any error escaping a phase hits the outer catch: `job.status = 'failed'` with
the error's message. -/
def execute (cfg : DumpConfig) (env : ExecEnv) : ExecResult :=
  let classQids :=
    if cfg.includeSubclasses then expandSubclasses cfg.classQid env.expandResponse
    else [cfg.classQid]
  let generated := enumerateInstances (classQids.map env.pagesFor) (some cfg.maxInstances)
  match enumLoop env.abortAfter generated 0 with
  | .error e => .failed e
  | .ok (instances, k0) =>
    let est := estimateTriples (instances.take SAMPLE_SIZE) env.estimateResponse
    let totalEst := totalEstimate est instances.length
    match runHops env cfg.radius [] (jsSetOfList instances) k0 with
    | .error e => .failed e
    | .ok (_, out, visited, k1) =>
      match
        (if cfg.includePropertyMetadata ≠ some false then propPhase env out k1
         else .ok ("", k1)) with
      | .error e => .failed e
      | .ok (pout, _) => .completed totalEst (out ++ pout) visited.length

/-- A benign environment whose hop CONSTRUCT always succeeds with `f batch`,
with no abort and no property metadata; used to observe the crawl loop alone. -/
def pureEnv (f : List String → String) : ExecEnv :=
  ⟨.ok [], fun _ => [], .ok [], fun b => .ok (f b), fun _ => .ok "", none⟩

/-- The output text written by the hop loop for seeds `seeds` and radius
`radius` when every batch CONSTRUCT returns `f batch`. -/
def crawlOutput (f : List String → String) (radius : Nat) (seeds : List String) :
    String :=
  match runHops (pureEnv f) radius [] (jsSetOfList seeds) 0 with
  | .ok (_, out, _, _) => out
  | .error _ => ""

/-- The per-hop processed identifier lists of the same run. -/
def crawlHops (f : List String → String) (radius : Nat) (seeds : List String) :
    List (List String) :=
  match runHops (pureEnv f) radius [] (jsSetOfList seeds) 0 with
  | .ok (ps, _, _, _) => ps
  | .error _ => []

/-! ### `server/dump.ts` : `convertToTurtle`'s parse-and-count loop

The loop splits the written N-Triples text on newlines, skips blank lines,
parses each remaining line with a fresh per-line N-Triples n3 parser and adds
the resulting quad to an n3 `Store`; a line that fails to parse increments
`skippedLines` and is skipped.  The n3 parser is the oracle
`lineQuad : String → Option String` (the quad serialized canonically, `none`
on a parse error; each line holds at most one statement) and the `Store`,
which deduplicates identical quads, is a `Finset`. -/

/-- The per-line loop, threading `(store, skippedLines)`. -/
def convertLines (lineQuad : String → Option String) :
    List String → Finset String × Nat → Finset String × Nat
  | [], st => st
  | line :: rest, st =>
    if isBlank line then convertLines lineQuad rest st
    else
      match lineQuad line with
      | some q => convertLines lineQuad rest (insert q st.1, st.2)
      | none => convertLines lineQuad rest (st.1, st.2 + 1)

/-- `convertToTurtle`'s accumulated store and skipped-line count for the given
N-Triples text. -/
def convertToTurtleCounts (lineQuad : String → Option String) (nt : String) :
    Finset String × Nat :=
  convertLines lineQuad (jsSplitOn '\n' nt) (∅, 0)

/-- The non-blank lines of a text, in order (the lines the conversion loop
actually processes). -/
def contentLines (nt : String) : List String :=
  (jsSplitOn '\n' nt).filter (fun l => !isBlank l)

/-! ### Concrete inputs for the counterexamples and witnesses -/

/-- A transport behavior whose first attempt fails fast with a network error
and whose second attempt succeeds instantly. -/
def retryThenOkBeh : Nat → AttemptOutcome :=
  fun i => if i = 0 then ⟨0, .networkError⟩ else ⟨0, .ok⟩

/-- A transport behavior that succeeds instantly on the first attempt. -/
def okBeh : Nat → AttemptOutcome :=
  fun _ => ⟨0, .ok⟩

/-- Two sequential `fetchSparql` calls: the first needs one retry, the second
succeeds immediately; the clock starts at 10000ms with a fresh client. -/
def rateLimitCexTrace : CallsTrace :=
  runCalls 0 10000 [retryThenOkBeh, okBeh]

/-- A transport behavior whose first attempt is an instant HTTP 429 carrying
`Retry-After: 3`, with the retry succeeding instantly. -/
def retryAfter3Beh : Nat → AttemptOutcome :=
  fun i => if i = 0 then ⟨0, .status429 (.seconds 3)⟩ else ⟨0, .ok⟩

/-- One `fetchSparql` call hitting that 429, clock at 10000ms, fresh client. -/
def retryAfterCexTrace : FetchTrace :=
  fetchSparql 0 10000 retryAfter3Beh

/-- A batch CONSTRUCT result of exactly five non-blank lines, none of which
has an entity-valued object (all objects are literals). -/
def fiveLineResult : String :=
  "<http://www.wikidata.org/entity/Q1> <http://www.wikidata.org/prop/direct/P18> \"a\" .\n<http://www.wikidata.org/entity/Q1> <http://www.wikidata.org/prop/direct/P18> \"b\" .\n<http://www.wikidata.org/entity/Q2> <http://www.wikidata.org/prop/direct/P18> \"c\" .\n<http://www.wikidata.org/entity/Q2> <http://www.wikidata.org/prop/direct/P18> \"d\" .\n<http://www.wikidata.org/entity/Q2> <http://www.wikidata.org/prop/direct/P18> \"e\" .\n"

/-- A one-triple CONSTRUCT result mentioning the property `P31` (so that the
property-enrichment loop has one batch to run) and no entity-valued object. -/
def hopLineP31 : String :=
  "<http://www.wikidata.org/entity/Q1> <http://www.wikidata.org/prop/direct/P31> \"x\" .\n"

/-- A one-triple CONSTRUCT result with no property URI and no entity-valued
object (property enrichment finds nothing to do on it). -/
def hopLinePlain : String :=
  "<http://example.org/a> <http://example.org/b> \"x\" .\n"

/-- Config used by the concrete orchestrator runs: radius 1, cap 10, no
subclass expansion, property metadata left at its default (enabled). -/
def cfgBase : DumpConfig :=
  ⟨"Q5", 1, 10, "en", false, none⟩

/-- Config with subclass expansion enabled. -/
def cfgSub : DumpConfig :=
  ⟨"Q5", 1, 10, "en", true, none⟩

/-- Environment for the property-enrichment failure run: one instance, a hop
result containing `P31`, and a property CONSTRUCT that fails with `msg`. -/
def envPropFail (msg : String) : ExecEnv :=
  ⟨.ok [], fun _ => [["Q1"]], .ok [3], fun _ => .ok hopLineP31,
   fun _ => .error msg, none⟩

/-- Environment for the abort runs: two instances in one page, a hop result
containing `P31`, benign transports, abort signal set from check `n` on. -/
def envAbort (abortAfter : Option Nat) : ExecEnv :=
  ⟨.ok [], fun _ => [["Q1", "Q2"]], .ok [3, 4], fun _ => .ok hopLineP31,
   fun _ => .ok "", abortAfter⟩

/-- Environment whose hop CONSTRUCT fails with the message `Job aborted` —
a genuine transport failure, no abort signal. -/
def envHopFailAborted : ExecEnv :=
  ⟨.ok [], fun _ => [["Q1", "Q2"]], .ok [3, 4], fun _ => .error "Job aborted",
   fun _ => .ok "", none⟩

/-- Environment for the failed-subclass-expansion run: the expansion SELECT
fails with `e`, the original class `Q5` has the single instance `Q1` while any
other class would enumerate `BAD`, and the hop CONSTRUCT answers one triple
for the batch `[Q1]` but two for any other batch — so the output line count
witnesses that only the original class was used. -/
def envExpandFail (e : String) : ExecEnv :=
  ⟨.error e, fun c => if c = "Q5" then [["Q1"]] else [["BAD"]], .ok [2],
   fun b => if b = ["Q1"] then .ok hopLinePlain
            else .ok (hopLinePlain ++ hopLinePlain),
   fun _ => .ok "", none⟩

/-- The N-Triples output text a terminal record carries (empty on failure). -/
def outputOf : ExecResult → String
  | .completed _ out _ => out
  | .failed _ => ""

/-- Environment with no instances at all (every search page list is empty). -/
def envNoInstances : ExecEnv :=
  ⟨.ok [], fun _ => [], .ok [], fun _ => .ok "", fun _ => .ok "", none⟩

/-- A well-formed N-Triples line. -/
def wellFormedLine : String :=
  "<http://example.org/s> <http://example.org/p> <http://example.org/o> ."

/-- A line parser under which every non-blank line is well-formed and
identical lines parse to the identical statement (as any deterministic parser
does on two equal lines). -/
def lineQuadId : String → Option String :=
  fun l => if isBlank l then none else some l

/-- A line parser that rejects comment-style lines (those starting with `#`)
and parses every other non-blank line to itself. -/
def lineQuadTestA : String → Option String :=
  fun l =>
    if isBlank l then none
    else if leadsWith ['#'] l.data then none
    else some l

/-! ## Helper lemmas -/

theorem setAdd_nodup {s : List String} (h : s.Nodup) (x : String) :
    (setAdd s x).Nodup := by
  unfold setAdd
  split
  · exact h
  · next hx => simpa [List.nodup_append] using ⟨h, by simpa using hx⟩

theorem setAdd_mem {s : List String} {x y : String} (h : y ∈ setAdd s x) :
    y ∈ s ∨ y = x := by
  unfold setAdd at h
  split at h
  · exact Or.inl h
  · rcases List.mem_append.1 h with h' | h'
    · exact Or.inl h'
    · exact Or.inr (by simpa using h')

theorem foldl_setAdd_nodup (l : List String) :
    ∀ {acc : List String}, acc.Nodup → (l.foldl setAdd acc).Nodup := by
  induction l with
  | nil => intro acc h; simpa using h
  | cons x xs ih => intro acc h; exact ih (setAdd_nodup h x)

theorem jsSetOfList_nodup (l : List String) : (jsSetOfList l).Nodup :=
  foldl_setAdd_nodup l List.nodup_nil

theorem chunkArrayGo_fuel (size : Nat) (hs : size ≠ 0) :
    ∀ (fuel₁ fuel₂ : Nat) (l : List String),
      l.length ≤ fuel₁ → l.length ≤ fuel₂ →
      chunkArrayGo size fuel₁ l = chunkArrayGo size fuel₂ l := by
  intro fuel₁
  induction fuel₁ with
  | zero =>
    intro fuel₂ l h1 _
    have : l = [] := List.eq_nil_of_length_eq_zero (Nat.le_zero.mp h1)
    subst this
    cases fuel₂ <;> rfl
  | succ fuel₁ ih =>
    intro fuel₂ l h1 h2
    cases l with
    | nil => cases fuel₂ <;> rfl
    | cons x xs =>
      cases fuel₂ with
      | zero => simp at h2
      | succ fuel₂ =>
        show ((x :: xs).take size :: chunkArrayGo size fuel₁ ((x :: xs).drop size)) =
          ((x :: xs).take size :: chunkArrayGo size fuel₂ ((x :: xs).drop size))
        have hd : ((x :: xs).drop size).length ≤ fuel₁ := by
          simp only [List.length_drop, List.length_cons]
          have := Nat.pos_of_ne_zero hs
          simp only [List.length_cons] at h1
          omega
        have hd2 : ((x :: xs).drop size).length ≤ fuel₂ := by
          simp only [List.length_drop, List.length_cons]
          have := Nat.pos_of_ne_zero hs
          simp only [List.length_cons] at h2
          omega
        rw [ih fuel₂ _ hd hd2]

theorem chunkArray_nil (size : Nat) : chunkArray [] size = [] := by
  unfold chunkArray
  split
  · rfl
  · rfl

theorem chunkArray_cons (l : List String) (size : Nat) (hnil : l ≠ []) (hs : size ≠ 0) :
    chunkArray l size = l.take size :: chunkArray (l.drop size) size := by
  unfold chunkArray
  rw [if_neg hs, if_neg hs]
  cases l with
  | nil => exact absurd rfl hnil
  | cons x xs =>
    show ((x :: xs).take size :: chunkArrayGo size xs.length ((x :: xs).drop size)) = _
    congr 1
    apply chunkArrayGo_fuel size hs
    · simp only [List.length_drop, List.length_cons]
      have := Nat.pos_of_ne_zero hs
      omega
    · exact le_rfl

theorem chunkArray_join (size : Nat) (hs : size ≠ 0) :
    ∀ l : List String, (chunkArray l size).flatten = l := by
  have key : ∀ n (l : List String), l.length ≤ n → (chunkArray l size).flatten = l := by
    intro n
    induction n with
    | zero =>
      intro l hl
      have hnil : l = [] := List.eq_nil_of_length_eq_zero (Nat.le_zero.mp hl)
      subst hnil
      simp [chunkArray_nil]
    | succ n ih =>
      intro l hl
      by_cases hnil : l = []
      · subst hnil; simp [chunkArray_nil]
      · rw [chunkArray_cons l size hnil hs]
        have hdrop : (l.drop size).length ≤ n := by
          have h1 : 1 ≤ l.length := by
            cases l with
            | nil => exact absurd rfl hnil
            | cons a as => simp
          have hs1 : 1 ≤ size := Nat.pos_of_ne_zero hs
          simp only [List.length_drop]
          omega
        simp only [List.flatten_cons, ih (l.drop size) hdrop,
          List.take_append_drop]
  intro l
  exact key l.length l le_rfl

theorem extractNeighbors_nodup (nt : String) : (extractNeighbors nt).Nodup := by
  unfold extractNeighbors
  generalize jsSplitOn '\n' nt = lines
  have key : ∀ (ls : List String) (acc : List String), acc.Nodup →
      (ls.foldl (fun acc line =>
        match neighborOfLine line with
        | some qid => setAdd acc qid
        | none => acc) acc).Nodup := by
    intro ls
    induction ls with
    | nil => intro acc h; simpa using h
    | cons l rest ih =>
      intro acc h
      simp only [List.foldl_cons]
      cases neighborOfLine l with
      | some q => exact ih _ (setAdd_nodup h q)
      | none => exact ih _ h
  exact key lines [] List.nodup_nil

theorem attemptFinish_ge (now : Nat) (a : AttemptOutcome) :
    now ≤ attemptFinish now a := by
  unfold attemptFinish
  cases a.result
  all_goals simp
  all_goals omega

theorem backoffRun_finish_ge (beh : Nat → AttemptOutcome) (baseDelay : Nat) :
    ∀ (fuel i now : Nat), now ≤ (backoffRun beh baseDelay fuel i now).finish := by
  intro fuel
  induction fuel with
  | zero => intro i now; simp [backoffRun]
  | succ fuel ih =>
    intro i now
    simp only [backoffRun]
    split
    · exact le_trans (le_trans (attemptFinish_ge now (beh i)) (Nat.le_add_right _ _))
        (ih (i + 1) _)
    · exact attemptFinish_ge now (beh i)

theorem backoffRun_starts_cons (beh : Nat → AttemptOutcome) (baseDelay fuel i now : Nat) :
    ∃ tl, (backoffRun beh baseDelay (fuel + 1) i now).starts = now :: tl := by
  simp only [backoffRun]
  split
  · exact ⟨_, rfl⟩
  · exact ⟨[], rfl⟩

theorem enforceRateLimit_ge_last (now last : Nat) (h : last ≤ now) :
    last + MIN_DELAY_MS ≤ enforceRateLimit now last := by
  unfold enforceRateLimit MIN_DELAY_MS
  split <;> omega

theorem enforceRateLimit_ge_now (now last : Nat) :
    now ≤ enforceRateLimit now last := by
  unfold enforceRateLimit
  split <;> omega

theorem runCalls_firstStarts_cons (last now : Nat) (beh : Nat → AttemptOutcome)
    (rest : List (Nat → AttemptOutcome)) :
    (runCalls last now (beh :: rest)).firstStarts =
      enforceRateLimit now last ::
        (runCalls (enforceRateLimit now last)
          (backoffRun beh 1000 5 0 (enforceRateLimit now last)).finish
          rest).firstStarts := rfl

theorem minGapsOk_cons (gap a : Nat) (l : List Nat)
    (hall : ∀ x ∈ l, a + gap ≤ x) (h : minGapsOk gap l = true) :
    minGapsOk gap (a :: l) = true := by
  cases l with
  | nil => rfl
  | cons b tl =>
    show (decide (a + gap ≤ b) && minGapsOk gap (b :: tl)) = true
    simp only [Bool.and_eq_true, decide_eq_true_eq]
    exact ⟨hall b (List.mem_cons_self b tl), h⟩

theorem runCalls_firstStarts_spec :
    ∀ (calls : List (Nat → AttemptOutcome)) (last now : Nat), last ≤ now →
      minGapsOk MIN_DELAY_MS (runCalls last now calls).firstStarts = true ∧
      ∀ x ∈ (runCalls last now calls).firstStarts, last + MIN_DELAY_MS ≤ x := by
  intro calls
  induction calls with
  | nil => intro last now _; exact ⟨rfl, by intro x hx; simp [runCalls] at hx⟩
  | cons beh rest ih =>
    intro last now hln
    have ht0 : last + MIN_DELAY_MS ≤ enforceRateLimit now last :=
      enforceRateLimit_ge_last now last hln
    have hfin : enforceRateLimit now last ≤
        (backoffRun beh 1000 5 0 (enforceRateLimit now last)).finish :=
      backoffRun_finish_ge beh 1000 5 0 _
    obtain ⟨ih1, ih2⟩ := ih (enforceRateLimit now last)
      (backoffRun beh 1000 5 0 (enforceRateLimit now last)).finish hfin
    rw [runCalls_firstStarts_cons]
    constructor
    · exact minGapsOk_cons MIN_DELAY_MS _ _ ih2 ih1
    · intro x hx
      rcases List.mem_cons.1 hx with hx | hx
      · subst hx; exact ht0
      · have := ih2 x hx
        omega

theorem rat_zero_div_zero : jsDiv (.num 0) (.num 0) = JsNum.nan := by
  simp [jsDiv]

theorem foldl_condSetAdd_nodup (visited' : List String) (ns : List String) :
    ∀ {acc : List String}, acc.Nodup →
      (ns.foldl (fun a q => if q ∈ visited' then a else setAdd a q) acc).Nodup := by
  induction ns with
  | nil => intro acc h; simpa using h
  | cons q rest ih =>
    intro acc h
    simp only [List.foldl_cons]
    by_cases hq : q ∈ visited'
    · rw [if_pos hq]; exact ih h
    · rw [if_neg hq]; exact ih (setAdd_nodup h q)

theorem runBatches_nodup (env : ExecEnv) (lastHop : Bool) (visited' : List String) :
    ∀ (batches : List (List String)) (k : Nat) (out : String) (acc : List String)
      (out' : String) (ns : List String) (k' : Nat),
      acc.Nodup →
      runBatches env lastHop visited' batches k out acc = .ok (out', ns, k') →
      ns.Nodup := by
  intro batches
  induction batches with
  | nil =>
    intro k out acc out' ns k' hacc h
    simp only [runBatches] at h
    cases h
    exact hacc
  | cons b rest ih =>
    intro k out acc out' ns k' hacc h
    simp only [runBatches] at h
    split at h
    · cases h
    · split at h
      · cases h
      · next nt _ =>
        by_cases hl : lastHop
        · rw [if_pos hl] at h
          exact ih _ _ _ _ _ _ hacc h
        · rw [if_neg hl] at h
          exact ih _ _ _ _ _ _ (foldl_condSetAdd_nodup visited' _ hacc) h

theorem contains_eq_mem (l : List String) (q : String) :
    (l.contains q = true) ↔ q ∈ l := by
  simp [List.contains_iff_exists_mem_beq, beq_iff_eq]

theorem runHops_processed_spec (env : ExecEnv) :
    ∀ (fuel : Nat) (visited frontier : List String) (k : Nat)
      (ps : List (List String)) (out : String) (vf : List String) (k' : Nat),
      frontier.Nodup →
      runHops env fuel visited frontier k = .ok (ps, out, vf, k') →
      (∀ A ∈ ps, A.Nodup ∧ ∀ q ∈ A, q ∉ visited) ∧
      List.Pairwise List.Disjoint ps := by
  intro fuel
  induction fuel with
  | zero =>
    intro visited frontier k ps out vf k' _ h
    simp only [runHops] at h
    cases h
    simp
  | succ fuel ih =>
    intro visited frontier k ps out vf k' hfr h
    simp only [runHops] at h
    split at h
    · cases h; simp
    · by_cases hemp : (frontier.filter (fun q => !(visited.contains q))).isEmpty
      · rw [if_pos hemp] at h
        exact ih visited frontier k ps out vf k' hfr h
      · rw [if_neg hemp] at h
        cases hrb : runBatches env (fuel = 0)
            (visited ++ frontier.filter (fun q => !(visited.contains q)))
            (chunkArray (frontier.filter (fun q => !(visited.contains q))) BATCH_SIZE)
            k "" [] with
        | error e => rw [hrb] at h; cases h
        | ok res =>
          obtain ⟨o, next, k1⟩ := res
          rw [hrb] at h
          dsimp only at h
          cases hrh : runHops env fuel
              (visited ++ frontier.filter (fun q => !(visited.contains q))) next k1 with
          | error e => rw [hrh] at h; cases h
          | ok res' =>
            obtain ⟨ps', o', vf', k''⟩ := res'
            rw [hrh] at h
            dsimp only at h
            simp only [Except.ok.injEq, Prod.mk.injEq] at h
            obtain ⟨hps, hout, hvf, hk⟩ := h
            subst hps
            have hnext : next.Nodup :=
              runBatches_nodup env (fuel = 0) _ _ _ _ _ _ _ _ List.nodup_nil hrb
            obtain ⟨ihA, ihP⟩ := ih _ next k1 ps' o' vf' k'' hnext hrh
            have htp : (frontier.filter (fun q => !(visited.contains q))).Nodup :=
              hfr.filter _
            have htpv : ∀ q ∈ frontier.filter (fun q => !(visited.contains q)),
                q ∉ visited := by
              intro q hq
              have := List.of_mem_filter hq
              simp only [Bool.not_eq_true'] at this
              intro hmem
              rw [← contains_eq_mem visited q] at hmem
              rw [this] at hmem
              cases hmem
            refine ⟨?_, ?_⟩
            · intro A hA
              rcases List.mem_cons.1 hA with hA | hA
              · subst hA
                exact ⟨htp, htpv⟩
              · obtain ⟨hn, hv⟩ := ihA A hA
                refine ⟨hn, ?_⟩
                intro q hq hqv
                exact hv q hq (List.mem_append_left _ hqv)
            · refine List.pairwise_cons.2 ⟨?_, ihP⟩
              intro B hB a ha
              intro haB
              have hav : a ∈ visited ++ frontier.filter (fun q => !(visited.contains q)) :=
                List.mem_append_right _ ha
              exact (ihA B hB).2 a haB hav

theorem not_capHit_lt (k total : Nat) (hk : k ≠ 0)
    (hc : ¬ capHit (some k) total = true) : total < k := by
  simp only [capHit] at hc
  rw [if_neg hk] at hc
  simp only [decide_eq_true_eq] at hc
  omega

theorem yieldPageIds_spec (k : Nat) (hk : k ≠ 0) :
    ∀ (ids : List String) (total : Nat), total ≤ k →
      (yieldPageIds (some k) ids total).2.1 =
        total + (yieldPageIds (some k) ids total).1.length ∧
      (yieldPageIds (some k) ids total).2.1 ≤ k := by
  intro ids
  induction ids with
  | nil => intro total ht; simp [yieldPageIds, ht]
  | cons q rest ih =>
    intro total ht
    by_cases hc : capHit (some k) total
    · simp only [yieldPageIds, if_pos hc]
      exact ⟨by simp, ht⟩
    · have hlt : total < k := not_capHit_lt k total hk hc
      obtain ⟨h1, h2⟩ := ih (total + 1) hlt
      simp only [yieldPageIds, if_neg hc, List.length_cons]
      exact ⟨by omega, h2⟩

theorem runPages_spec (k : Nat) (hk : k ≠ 0) :
    ∀ (pages : List (List String)) (total : Nat), total ≤ k →
      (runPages (some k) pages total).2.1 =
        total + (runPages (some k) pages total).1.length ∧
      (runPages (some k) pages total).2.1 ≤ k := by
  intro pages
  induction pages with
  | nil => intro total ht; simp [runPages, ht]
  | cons page rest ih =>
    intro total ht
    by_cases hc : capHit (some k) total
    · simp only [runPages, if_pos hc]
      exact ⟨by simp, ht⟩
    · obtain ⟨hy1, hy2⟩ := yieldPageIds_spec k hk page total ht
      by_cases hs : (yieldPageIds (some k) page total).2.2
      · simp only [runPages, if_neg hc, if_pos hs]
        exact ⟨hy1, hy2⟩
      · obtain ⟨hr1, hr2⟩ := ih (yieldPageIds (some k) page total).2.1 hy2
        simp only [runPages, if_neg hc, if_neg hs, List.length_append]
        exact ⟨by omega, hr2⟩

theorem enumClasses_spec (k : Nat) (hk : k ≠ 0) :
    ∀ (classes : List (List (List String))) (total : Nat), total ≤ k →
      total + (enumClasses (some k) classes total).length ≤ k := by
  intro classes
  induction classes with
  | nil => intro total ht; simpa [enumClasses] using ht
  | cons pages rest ih =>
    intro total ht
    obtain ⟨hr1, hr2⟩ := runPages_spec k hk pages total ht
    by_cases hs : (runPages (some k) pages total).2.2
    · simp only [enumClasses, if_pos hs]
      omega
    · have := ih (runPages (some k) pages total).2.1 hr2
      simp only [enumClasses, if_neg hs, List.length_append]
      omega

theorem convertLines_spec (lineQuad : String → Option String) :
    ∀ (lines : List String) (s : Finset String) (n : Nat),
      convertLines lineQuad lines (s, n) =
        (s ∪ ((lines.filter (fun l => !isBlank l)).filterMap lineQuad).toFinset,
         n + ((lines.filter (fun l => !isBlank l)).filter
                (fun l => (lineQuad l).isNone)).length) := by
  intro lines
  induction lines with
  | nil => intro s n; simp [convertLines]
  | cons line rest ih =>
    intro s n
    simp only [convertLines]
    by_cases hb : isBlank line
    · rw [if_pos hb]
      rw [ih s n]
      simp [hb]
    · have hfil : List.filter (fun l => !isBlank l) (line :: rest) =
          line :: List.filter (fun l => !isBlank l) rest := by
        simp [List.filter_cons, hb]
      cases hq : lineQuad line with
      | some q =>
        simp only [convertLines, if_neg hb, hq]
        rw [ih (insert q s) n, hfil]
        simp only [List.filterMap_cons, hq, List.filter_cons, Option.isNone_some,
          List.toFinset_cons, Prod.mk.injEq]
        constructor
        · ext x
          simp only [Finset.mem_union, Finset.mem_insert, List.mem_toFinset]
          tauto
        · simp
      | none =>
        simp only [convertLines, if_neg hb, hq]
        rw [ih s (n + 1), hfil]
        simp only [List.filterMap_cons, hq, List.filter_cons, Option.isNone_none,
          if_true, List.length_cons, Prod.mk.injEq]
        exact ⟨trivial, by omega⟩

theorem backoffRun_second_start (beh : Nat → AttemptOutcome) (bd fuel i now : Nat)
    (hfail : attemptFails (beh i).result = true) :
    (backoffRun beh bd (fuel + 2) i now).starts.take 2 =
      [now, attemptFinish now (beh i) + bd * 2 ^ i] := by
  obtain ⟨tl, htl⟩ := backoffRun_starts_cons beh bd fuel (i + 1)
    (attemptFinish now (beh i) + bd * 2 ^ i)
  have hs : (backoffRun beh bd (fuel + 2) i now).starts =
      now :: (backoffRun beh bd (fuel + 1) (i + 1)
        (attemptFinish now (beh i) + bd * 2 ^ i)).starts := by
    conv_lhs => rw [backoffRun]
    rw [if_pos hfail]
  rw [hs, htl]
  rfl

/-! ## Claims -/

/-- Claim C1: for every crawl configuration and environment, the orchestrator's
VisitedSet admits each entity identifier at most once.  `runHops` is the hop
loop of `DumpOrchestrator.execute` started from the seed frontier
`new Set(instances)` with the empty `visited` set; its first component lists,
hop by hop, the identifiers that survived the VisitedSet filter, were marked
visited before any batch was fetched, and were then partitioned into the
fetched batches.  Each such list is duplicate-free and the lists are pairwise
disjoint, so no identifier fetched at hop `k` is ever fetched again at any
later hop. -/
theorem claim1_visitedSet_fetch_once (env : ExecEnv) (radius : Nat)
    (instances : List String) (ps : List (List String)) (out : String)
    (vf : List String) (k' : Nat)
    (h : runHops env radius [] (jsSetOfList instances) 0 = .ok (ps, out, vf, k')) :
    (∀ A ∈ ps, A.Nodup) ∧ List.Pairwise List.Disjoint ps := by
  obtain ⟨hA, hP⟩ := runHops_processed_spec env radius [] (jsSetOfList instances) 0
    ps out vf k' (jsSetOfList_nodup instances) h
  exact ⟨fun A hA' => (hA A hA').1, hP⟩

/-- Witness for C1: a radius-2 crawl from the single seed `Q1` whose batch
queries return no triples processes exactly the hop-1 list `[Q1]`. -/
theorem claim1_visitedSet_fetch_once_witness :
    (∀ A ∈ [["Q1"]], A.Nodup) ∧ List.Pairwise List.Disjoint [["Q1"]] :=
  claim1_visitedSet_fetch_once (pureEnv (fun _ => "")) 2 ["Q1"] [["Q1"]] ""
    ["Q1"] 1 rfl

/-- Claim C2 (counterexample): a transport error in a property-enrichment
batch is not caught — the job fails.  With one instance, a successful hop
whose output mentions `P31`, and a property-metadata CONSTRUCT that fails
after its retries, `execute` ends in the `failed` state carrying that error,
not in `completed` as the claim asserts. -/
theorem claim2_prop_batch_failure_counterexample :
    execute cfgBase (envPropFail "WDQS error 500: boom") =
      .failed "WDQS error 500: boom" ∧
    statusOf (execute cfgBase (envPropFail "WDQS error 500: boom")) ≠
      JobStatus.completed := by
  constructor
  · rfl
  · intro hc
    cases hc

/-- Claim C2 (amended): failure of a single property-enrichment batch IS fatal
to the job.  There is no try/catch at that phase boundary: whatever transport
error the property-metadata CONSTRUCT raises propagates to `execute`'s outer
handler and the job transitions to `failed` with that error message, never
reaching `completed`. -/
theorem claim2_amended_prop_batch_failure_fails_job (msg : String) :
    execute cfgBase (envPropFail msg) = .failed msg := rfl

/-- Claim C3 (counterexample): the 200ms minimum gap does not hold between all
consecutive outbound requests once retries are involved.  A first call whose
initial attempt fails instantly retries 1000ms later (recording only the first
attempt's start in `lastRequestTime`); the next call then starts at the very
moment of that retry — a 0ms gap between two consecutive outbound requests. -/
theorem claim3_rate_limit_gap_counterexample :
    rateLimitCexTrace.allStarts = [10000, 11000, 11000] ∧
    minGapsOk MIN_DELAY_MS rateLimitCexTrace.allStarts = false := by
  decide

/-- Claim C3 (amended): the rate limiter guarantees the 200ms minimum gap
between the recorded request start times of consecutive `fetchSparql` calls
(each call's first attempt, as recorded in `lastRequestTime`); retried
attempts inside a call bypass `enforceRateLimit`, so the gap between a retried
attempt and the following call's first request can be below the minimum. -/
theorem claim3_amended_min_gap_between_call_starts
    (now : Nat) (calls : List (Nat → AttemptOutcome)) :
    minGapsOk MIN_DELAY_MS (runCalls 0 now calls).firstStarts = true :=
  (runCalls_firstStarts_spec calls 0 now (Nat.zero_le now)).1

/-- Claim C4 (counterexample): after a 429 with `Retry-After: 3` received at
time 10000, the next attempt starts at 14000, not at 13000 — the transport
sleeps the Retry-After duration and then the backoff machinery sleeps its own
base delay, so the next attempt does not start exactly 3s after the 429
(it does start no earlier than that). -/
theorem claim4_retry_after_counterexample :
    retryAfterCexTrace.starts = [10000, 14000] ∧
    ¬ (14000 : Nat) = 10000 + 3000 ∧
    10000 + 3000 ≤ (14000 : Nat) := by
  decide

/-- Claim C4 (amended): on a 429 the transport parses `Retry-After` as
seconds, as an HTTP date (non-negative remaining time), or defaults to 5s when
absent or unparseable, and sleeps exactly that duration — after which the
retry loop adds its exponential-backoff sleep, so the next attempt starts
`retryAfter + baseDelay·2^attempt` after the 429 was received: no earlier
than the Retry-After duration, but not exactly at it. -/
theorem claim4_amended_retry_after_plus_backoff :
    (∀ t, parseRetryAfter .absent t = 5000) ∧
    (∀ s t, parseRetryAfter (.seconds s) t = s * 1000) ∧
    (∀ d t, parseRetryAfter (.httpDate d) t = max 0 (d - t)) ∧
    (∀ t, parseRetryAfter .unparseable t = 5000) ∧
    (∀ (last now d : Nat) (hdr : RetryAfterHeader) (rest : Nat → AttemptOutcome),
      (fetchSparql last now
          (fun i => if i = 0 then ⟨d, .status429 hdr⟩ else rest i)).starts.take 2 =
        [enforceRateLimit now last,
         enforceRateLimit now last + d +
           (parseRetryAfter hdr ((enforceRateLimit now last + d : Nat) : Int)).toNat +
           1000]) := by
  refine ⟨fun t => rfl, fun s t => rfl, fun d t => rfl, fun t => rfl, ?_⟩
  intro last now d hdr rest
  have h2 := backoffRun_second_start
    (fun i => if i = 0 then ⟨d, .status429 hdr⟩ else rest i) 1000 3 0
    (enforceRateLimit now last) rfl
  show (backoffRun (fun i => if i = 0 then ⟨d, .status429 hdr⟩ else rest i)
      1000 5 0 (enforceRateLimit now last)).starts.take 2 = _
  rw [h2]
  have hfin : attemptFinish (enforceRateLimit now last)
      ((fun i => if i = 0 then AttemptOutcome.mk d (.status429 hdr) else rest i) 0) =
      enforceRateLimit now last + d +
        (parseRetryAfter hdr ((enforceRateLimit now last + d : Nat) : Int)).toNat := rfl
  rw [hfin]
  simp

/-- Claim C5 (counterexample): with radius 1 and 2 seed identifiers, the two
seeds are chunked into a single batch (`BATCH_SIZE = 200`), so when each batch
query returns 5 triples the written output stream has exactly 5 non-empty
lines — not 10 as the claim asserts. -/
theorem claim5_ten_lines_counterexample :
    countNonEmptyLines (crawlOutput (fun _ => fiveLineResult) 1 ["Q1", "Q2"]) = 5 ∧
    ¬ countNonEmptyLines (crawlOutput (fun _ => fiveLineResult) 1 ["Q1", "Q2"]) = 10 := by
  decide

/-- Claim C5 (amended): for radius 1 and 2 distinct seed identifiers, the hop
loop runs exactly one hop consisting of the single batch `[s1, s2]`; when that
batch's query returns 5 triples (5 non-empty lines) and the run is at its
final hop (so no neighbors are extracted and the hop-2 frontier stays empty),
the written output stream is exactly that batch result, with exactly 5
non-empty lines, and no second hop is attempted. -/
theorem claim5_amended_five_lines_single_batch (s1 s2 : String)
    (f : List String → String) (hne : s1 ≠ s2)
    (h5 : countNonEmptyLines (f [s1, s2]) = 5) :
    crawlHops f 1 [s1, s2] = [[s1, s2]] ∧
    crawlOutput f 1 [s1, s2] = f [s1, s2] ∧
    countNonEmptyLines (crawlOutput f 1 [s1, s2]) = 5 := by
  have hset : jsSetOfList [s1, s2] = [s1, s2] := by
    show setAdd (setAdd [] s1) s2 = [s1, s2]
    rw [show setAdd [] s1 = [s1] from rfl]
    unfold setAdd
    rw [if_neg]
    · rfl
    · simp [Ne.symm hne]
  have hrun : runHops (pureEnv f) 1 [] [s1, s2] 0 =
      .ok ([[s1, s2]], ("" ++ f [s1, s2]) ++ "", [] ++ [s1, s2], 1) := rfl
  have hout : ("" ++ f [s1, s2]) ++ "" = f [s1, s2] := by
    rw [String.empty_append, String.append_empty]
  refine ⟨?_, ?_, ?_⟩
  · unfold crawlHops
    rw [hset, hrun]
  · unfold crawlOutput
    rw [hset, hrun]
    exact hout
  · unfold crawlOutput
    rw [hset, hrun]
    show countNonEmptyLines (("" ++ f [s1, s2]) ++ "") = 5
    rw [hout]
    exact h5

/-- Witness for the amended C5: the concrete seeds `Q1`, `Q2` with every batch
query answering the fixed five-line result. -/
theorem claim5_amended_five_lines_single_batch_witness :
    crawlHops (fun _ => fiveLineResult) 1 ["Q1", "Q2"] = [["Q1", "Q2"]] ∧
    crawlOutput (fun _ => fiveLineResult) 1 ["Q1", "Q2"] = fiveLineResult ∧
    countNonEmptyLines (crawlOutput (fun _ => fiveLineResult) 1 ["Q1", "Q2"]) = 5 :=
  claim5_amended_five_lines_single_batch "Q1" "Q2" (fun _ => fiveLineResult)
    (by decide) (by decide)

/-- Claim C6: for every cap `K ≥ 1`, every list of classes and every sequence
of upstream page sizes, `enumerateInstances` yields at most `K` identifiers in
total — the running total is shared across all classes and checked before each
yield. -/
theorem claim6_cap_enforcement (classes : List (List (List String))) (k : Nat)
    (hk : 1 ≤ k) :
    (enumerateInstances classes (some k)).length ≤ k := by
  have := enumClasses_spec k (by omega) classes 0 (Nat.zero_le k)
  unfold enumerateInstances
  omega

/-- Witness for C6: two classes with pages `[[a,b,c],[d]]` and `[[e,f]]` and
cap 3 yield exactly `[a,b,c]`, of length 3 ≤ 3. -/
theorem claim6_cap_enforcement_witness :
    1 ≤ 3 ∧
    (enumerateInstances [[["a", "b", "c"], ["d"]], [["e", "f"]]] (some 3)).length ≤ 3 :=
  ⟨by decide, claim6_cap_enforcement [[["a", "b", "c"], ["d"]], [["e", "f"]]] 3 (by decide)⟩

/-- Claim C7 (counterexample): the conversion's store deduplicates identical
statements, so an input of `N = 2` well-formed lines that are the same triple
produces 1 logical statement, not 2.  Here every non-blank line parses to
itself; the stream has two identical well-formed lines, zero malformed lines,
and the store holds a single statement. -/
theorem claim7_dedup_counterexample :
    ((contentLines (wellFormedLine ++ "\n" ++ wellFormedLine)).filter
        (fun l => (lineQuadId l).isSome)).length = 2 ∧
    (convertToTurtleCounts lineQuadId (wellFormedLine ++ "\n" ++ wellFormedLine)).1.card = 1 ∧
    (convertToTurtleCounts lineQuadId (wellFormedLine ++ "\n" ++ wellFormedLine)).2 = 0 ∧
    ¬ (1 : Nat) = 2 := by
  decide

/-- Claim C7 (amended): the conversion never aborts on a malformed line; for
every line parser and input stream it counts exactly `M` skipped lines (the
non-blank lines that fail to parse), and the store holds exactly the distinct
parsed statements — exactly `N` statements when the `N` well-formed non-blank
lines parse to pairwise-distinct statements. -/
theorem claim7_amended_counts (lineQuad : String → Option String) (nt : String)
    (hnodup : ((contentLines nt).filterMap lineQuad).Nodup) :
    (convertToTurtleCounts lineQuad nt).2 =
      ((contentLines nt).filter (fun l => (lineQuad l).isNone)).length ∧
    (convertToTurtleCounts lineQuad nt).1.card =
      ((contentLines nt).filterMap lineQuad).length := by
  unfold convertToTurtleCounts contentLines
  rw [convertLines_spec lineQuad (jsSplitOn '\n' nt) ∅ 0]
  unfold contentLines at hnodup
  constructor
  · simp
  · simp only [Finset.empty_union]
    exact List.toFinset_card_of_nodup hnodup

/-- Witness for the amended C7: one well-formed line and one malformed line
(under a parser that rejects lines starting with `#`) give one statement and
one skipped line. -/
theorem claim7_amended_counts_witness :
    ((((contentLines (wellFormedLine ++ "\n# garbage")).filterMap lineQuadTestA).Nodup) ∧
      (convertToTurtleCounts lineQuadTestA (wellFormedLine ++ "\n# garbage")).2 =
        ((contentLines (wellFormedLine ++ "\n# garbage")).filter
          (fun l => (lineQuadTestA l).isNone)).length ∧
      (convertToTurtleCounts lineQuadTestA (wellFormedLine ++ "\n# garbage")).1.card =
        ((contentLines (wellFormedLine ++ "\n# garbage")).filterMap lineQuadTestA).length) := by
  refine ⟨by decide, ?_⟩
  exact claim7_amended_counts lineQuadTestA (wellFormedLine ++ "\n# garbage") (by decide)

/-- Claim C8: if the subclass-expansion query fails for any reason, the class
expander returns exactly the singleton list containing the original class
identifier and the failure never propagates; the job proceeds normally using
only that one class (here: it completes, having enumerated and fetched only
the original class's instances). -/
theorem claim8_expand_failure_singleton :
    (∀ (classQid e : String), expandSubclasses classQid (.error e) = [classQid]) ∧
    (∀ e : String,
      statusOf (execute cfgSub (envExpandFail e)) = JobStatus.completed ∧
      countNonEmptyLines (outputOf (execute cfgSub (envExpandFail e))) = 1) := by
  exact ⟨fun classQid e => rfl, fun e => ⟨rfl, rfl⟩⟩

/-- Claim C9 (counterexample): the abort error is not its own error kind.  An
aborted run ends as `ExecResult.failed "Job aborted"` — the very same terminal
record an ordinary transport failure with message `Job aborted` produces, and
its `job.status` is the same `failed` used for every failure (the status type
has no aborted state), so the abort is not distinguishable from failure as a
kind, only by its message text. -/
theorem claim9_abort_kind_counterexample :
    execute cfgBase (envAbort (some 2)) = .failed "Job aborted" ∧
    execute cfgBase envHopFailAborted = .failed "Job aborted" ∧
    execute cfgBase (envAbort (some 2)) = execute cfgBase envHopFailAborted ∧
    statusOf (execute cfgBase (envAbort (some 2))) =
      statusOf (execute cfgBase envHopFailAborted) := by
  decide

/-- Claim C9 (amended): the enumeration loop, the hop batch loop and the
property-enrichment batch loop each check the abort signal before starting new
work; whichever check first observes the signal throws `Job aborted`, and the
job transitions to the terminal non-completed `failed` state with that
message.  In the run below the checks are numbered 0,1 (enumeration of two
instances), 2 (the one hop batch) and 3 (the one property batch): aborting at
check 0, 2 or 3 fails the job with `Job aborted`, while with the signal never
set the same run completes. -/
theorem claim9_amended_abort_checks :
    execute cfgBase (envAbort (some 0)) = .failed "Job aborted" ∧
    execute cfgBase (envAbort (some 2)) = .failed "Job aborted" ∧
    execute cfgBase (envAbort (some 3)) = .failed "Job aborted" ∧
    statusOf (execute cfgBase (envAbort (some 4))) = JobStatus.completed ∧
    statusOf (execute cfgBase (envAbort none)) = JobStatus.completed := by
  decide

/-- Claim C10: when instance enumeration yields zero identifiers,
`estimateTriples` returns 0 for the empty sample without querying, the
published estimate is `Math.round((0 / Math.min(100, 0)) * 0) = NaN` (JS
division `0 / 0`), and the job continues with this `NaN` estimate and
completes rather than failing or reporting zero. -/
theorem claim10_nan_estimate :
    (∀ resp : Except String (List Int), estimateTriples [] resp = 0) ∧
    totalEstimate 0 0 = JsNum.nan ∧
    execute cfgBase envNoInstances = .completed JsNum.nan "" 0 ∧
    statusOf (execute cfgBase envNoInstances) = JobStatus.completed := by
  refine ⟨fun resp => rfl, rfl, rfl, rfl⟩

end QW
